import Mathlib

/-!
Verification of the hybrid-search ranking pipeline of the Zava DIY dataset
repository.  The two scripts `scripts/hybrid_rrf_search.py` and
`scripts/hybrid_ranker_search.py` express the whole algorithm as SQL executed
by PostgreSQL; this development embeds the semantics of that SQL shallowly:

* products and their per-query retrieval keys (cosine distance of the stored
  embedding to the query embedding, and the `ts_rank_cd(..., 2)` text score)
  are modelled abstractly, since they are computed by database extensions;
* `RANK() OVER (ORDER BY key)` is modelled by counting strictly better rows,
  over the whole CTE result set (the window), before `LIMIT` applies;
* `ORDER BY ... LIMIT n` is modelled by an insertion sort followed by `take n`;
  the SQL orders only by the stated key, so tie order is engine-chosen — the
  relational predicate `IsRRFOutput` captures every ordering the SQL permits;
* `FULL OUTER JOIN ... ON product_id` (with unique ids per side) is modelled
  by a lookup-based merge, `COALESCE` by `Option.getD`;
* numeric literals such as `1.0 / (k + rank)` are modelled with exact
  rationals `ℚ` (PostgreSQL `numeric` evaluates these to high precision);
* `to_tsquery` raises a syntax error on input with no lexemes (PostgreSQL
  behaviour), modelled with `Except`.
-/

namespace ZavaSearch

/-- Row of `retail.products` as selected by the scripts. -/
structure Product where
  product_id : Nat
  sku : String
  product_name : String
  product_description : String
deriving DecidableEq

/-- Row produced by the `vector_search` / `keyword_search` CTEs: a product, the
sort key used by the branch (cosine distance, resp. `ts_rank_cd` score), and
its `RANK()` value. -/
structure BranchRow where
  prod : Product
  key : ℚ
  rank : Nat
deriving DecidableEq

/-- Join of `retail.products` with `retail.product_description_embeddings`
keeping rows with a non-null embedding; `dist p = some d` means product `p`
has an embedding at cosine distance `d` from the query embedding. -/
def densePairs (prods : List Product) (dist : Product → Option ℚ) :
    List (Product × ℚ) :=
  prods.filterMap (fun p => (dist p).map (fun d => (p, d)))

/-- Products whose text matches the tsquery, with their `ts_rank_cd` score;
`tsMatch` models the `@@ to_tsquery(...)` predicate. -/
def sparsePairs (prods : List Product) (tsMatch : Product → Bool)
    (score : Product → ℚ) : List (Product × ℚ) :=
  (prods.filter tsMatch).map (fun p => (p, score p))

/-- `RANK() OVER (ORDER BY key ASC)`: one plus the number of rows in the
window with a strictly smaller key. -/
def rankAsc (pairs : List (Product × ℚ)) (x : ℚ) : Nat :=
  1 + pairs.countP (fun q => q.2 < x)

/-- `RANK() OVER (ORDER BY key DESC)`: one plus the number of rows in the
window with a strictly larger key. -/
def rankDesc (pairs : List (Product × ℚ)) (x : ℚ) : Nat :=
  1 + pairs.countP (fun q => x < q.2)

/-- Sort order of the dense branch: ascending by cosine distance. -/
def brLE (a b : BranchRow) : Prop := a.key ≤ b.key

/-- Sort order of the sparse branch: descending by text score. -/
def brGE (a b : BranchRow) : Prop := b.key ≤ a.key

instance : DecidableRel brLE := fun a b => inferInstanceAs (Decidable (a.key ≤ b.key))

instance : DecidableRel brGE := fun a b => inferInstanceAs (Decidable (b.key ≤ a.key))

instance : IsTotal BranchRow brLE := ⟨fun a b => le_total a.key b.key⟩

instance : IsTotal BranchRow brGE := ⟨fun a b => le_total b.key a.key⟩

instance : IsTrans BranchRow brLE := ⟨fun _ _ _ h h2 => le_trans h h2⟩

instance : IsTrans BranchRow brGE := ⟨fun _ _ _ h h2 => le_trans h2 h⟩

/-- Window-function output of a dense branch CTE over the product pool
`prods`: every pool row with a non-null embedding, carrying its distance and
its `RANK()` over the whole window. -/
def denseRanked (prods : List Product) (dist : Product → Option ℚ) :
    List BranchRow :=
  (densePairs prods dist).map
    (fun q => ⟨q.1, q.2, rankAsc (densePairs prods dist) q.2⟩)

/-- Dense branch CTE including `ORDER BY distance ASC LIMIT limit`. -/
def denseBranch (prods : List Product) (dist : Product → Option ℚ)
    (limit : Nat) : List BranchRow :=
  (List.insertionSort brLE (denseRanked prods dist)).take limit

/-- Window-function output of a sparse branch CTE over the product pool
`prods`: every matching pool row with its score and its `RANK()`. -/
def sparseRanked (prods : List Product) (tsMatch : Product → Bool)
    (score : Product → ℚ) : List BranchRow :=
  (sparsePairs prods tsMatch score).map
    (fun q => ⟨q.1, q.2, rankDesc (sparsePairs prods tsMatch score) q.2⟩)

/-- Sparse branch CTE including `ORDER BY score DESC LIMIT limit`. -/
def sparseBranch (prods : List Product) (tsMatch : Product → Bool)
    (score : Product → ℚ) (limit : Nat) : List BranchRow :=
  (List.insertionSort brGE (sparseRanked prods tsMatch score)).take limit

/-- Output row of the RRF fusion `SELECT` (the final query of
`hybrid_rrf_search.py` and the `rrf_combined` CTE of
`hybrid_ranker_search.py`, before `ROW_NUMBER`): `COALESCE`d product columns,
the RRF score, and the two optional per-branch ranks. -/
structure FusedRow where
  product_id : Nat
  sku : String
  product_name : String
  product_description : String
  rrf_score : ℚ
  vector_rank : Option Nat
  keyword_rank : Option Nat
deriving DecidableEq

/-- One RRF summand: `COALESCE(1.0 / (k + rank), 0.0)` — `NULL` rank yields
`0`, a present rank contributes the reciprocal. -/
def contrib (k : ℚ) : Option Nat → ℚ
  | some r => 1 / (k + (r : ℚ))
  | none => 0

/-- Lookup of the (unique) branch row with a given product id, as used by the
join condition `ON vector_search.product_id = keyword_search.product_id`. -/
def findRow (i : Nat) (l : List BranchRow) : Option BranchRow :=
  l.find? (fun r => r.prod.product_id == i)

/-- `COALESCE(vs.col, ks.col)` over the two optional join sides. -/
def coalesce {α : Type} (f : BranchRow → α) (d : α) (v w : Option BranchRow) : α :=
  (v.map f).getD ((w.map f).getD d)

/-- One row of the full outer join, with the `COALESCE`d columns and the RRF
score `COALESCE(1.0/(k + vs.rank), 0.0) + COALESCE(1.0/(k + ks.rank), 0.0)`. -/
def fuseRow (k : ℚ) (v w : Option BranchRow) : FusedRow :=
  { product_id := coalesce (fun r => r.prod.product_id) 0 v w
    sku := coalesce (fun r => r.prod.sku) "" v w
    product_name := coalesce (fun r => r.prod.product_name) "" v w
    product_description := coalesce (fun r => r.prod.product_description) "" v w
    rrf_score := contrib k (v.map BranchRow.rank) + contrib k (w.map BranchRow.rank)
    vector_rank := v.map BranchRow.rank
    keyword_rank := w.map BranchRow.rank }

/-- `FROM vector_search FULL OUTER JOIN keyword_search ON product_id`:
every dense row paired with its keyword match (if any), plus the keyword rows
that matched no dense row.  Faithful to SQL when each side has unique
product ids. -/
def fuse (k : ℚ) (vs ks : List BranchRow) : List FusedRow :=
  vs.map (fun v => fuseRow k (some v) (findRow v.prod.product_id ks)) ++
    (ks.filter (fun w => (findRow w.prod.product_id vs).isNone)).map
      (fun w => fuseRow k none (some w))

/-- Sort order of the fused rows: descending by `rrf_score`. -/
def fuGE (a b : FusedRow) : Prop := b.rrf_score ≤ a.rrf_score

instance : DecidableRel fuGE :=
  fun a b => inferInstanceAs (Decidable (b.rrf_score ≤ a.rrf_score))

instance : IsTotal FusedRow fuGE := ⟨fun a b => le_total b.rrf_score a.rrf_score⟩

instance : IsTrans FusedRow fuGE := ⟨fun _ _ _ h h2 => le_trans h2 h⟩

/-! ### Query tokenization and `to_tsquery`

`search_query.split()` in Python splits on every whitespace character and
drops empty segments; `' | '.join(...)` then builds the tsquery text.
PostgreSQL's `to_tsquery` raises `syntax error in tsquery` when the input
contains no lexemes (in particular on the empty string). -/

/-- Split a character list at every character satisfying `p`, keeping empty
segments (they are filtered out by the callers, as Python's `split()` and the
tsquery lexer both do). -/
def splitCharsP (p : Char → Bool) : List Char → List (List Char)
  | [] => [[]]
  | c :: cs =>
    let segs := splitCharsP p cs
    if p c then [] :: segs
    else
      match segs with
      | [] => [[c]]
      | t :: ts => (c :: t) :: ts

/-- Python's `str.split()` with no argument: split on whitespace, dropping
empty tokens. -/
def python_split (s : String) : List String :=
  ((splitCharsP Char.isWhitespace s.data).map (fun cs => String.mk cs)).filter
    (fun t => t ≠ "")

/-- The scripts' `tsquery = ' | '.join(search_query.split())`. -/
def mk_tsquery (q : String) : String :=
  String.intercalate " | " (python_split q)

/-- PostgreSQL `to_tsquery`: lex the input at `|` operators and whitespace;
an input with no lexemes is a syntax error (PostgreSQL raises
`syntax error in tsquery` on such input, e.g. the empty string). -/
def to_tsquery (s : String) : Except String (List String) :=
  let lexemes := ((splitCharsP (fun c => c == '|' || c.isWhitespace) s.data).map
    (fun cs => String.mk cs)).filter (fun t => t ≠ "")
  if lexemes.isEmpty then Except.error "syntax error in tsquery"
  else Except.ok lexemes

/-! ### `scripts/hybrid_rrf_search.py`

The script runs one SQL statement: two CTEs over the whole
`retail.products` table (`vector_search` with `LIMIT 20`, `keyword_search`
with `LIMIT 20`), a full outer join computing `rrf_score`, then
`ORDER BY rrf_score DESC LIMIT 10`. -/

namespace HybridRRF

/-- The `vector_search` CTE: full-table dense retrieval, `RANK()` over the
whole filtered table, `ORDER BY distance LIMIT 20`. -/
def vector_search (prods : List Product) (dist : Product → Option ℚ) :
    List BranchRow :=
  denseBranch prods dist 20

/-- The `keyword_search` CTE, including the `to_tsquery` calls on the text
built from the query string: fails when the query tokenizes to no terms,
otherwise full-table sparse retrieval with `RANK()` and `LIMIT 20`. -/
def keyword_search (prods : List Product) (q : String)
    (tsMatch : Product → Bool) (score : Product → ℚ) :
    Except String (List BranchRow) :=
  match to_tsquery (mk_tsquery q) with
  | Except.error e => Except.error e
  | Except.ok _ => Except.ok (sparseBranch prods tsMatch score 20)

/-- Deterministic representative of the script's output:
`ORDER BY rrf_score DESC LIMIT 10` over the fused rows. -/
def rrf_results (k : ℚ) (vs ks : List BranchRow) : List FusedRow :=
  (List.insertionSort fuGE (fuse k vs ks)).take 10

/-- Every output the final `SELECT ... ORDER BY rrf_score DESC LIMIT 10` may
produce: the first ten rows of some score-descending ordering of the fused
set (SQL fixes only the score order, so tie order is engine-chosen). -/
def IsRRFOutput (k : ℚ) (vs ks : List BranchRow) (out : List FusedRow) : Prop :=
  ∃ full : List FusedRow, full.Perm (fuse k vs ks) ∧
    full.Pairwise fuGE ∧ out = full.take 10

end HybridRRF

/-! ### `scripts/hybrid_ranker_search.py`

One SQL statement: `base_candidates` pools the top 15 of each branch over
the whole table (`UNION`, which deduplicates); `vector_search` and
`keyword_search` re-rank that pool with `LIMIT 20`; `rrf_combined` fuses
them, adds `ROW_NUMBER() OVER (ORDER BY rrf_score DESC)` as `rrf_rank`, and
keeps the top 50; `azure_ai.rank` scores the candidates; an inner join on
the id serialized as text attaches ranker rank and score; the final
`SELECT` orders by ranker rank ascending and keeps 5 rows. -/

namespace HybridRanker

/-- A fused row together with its `rrf_rank` (`ROW_NUMBER` over the
score-descending order). -/
structure CombinedRow where
  row : FusedRow
  rrf_rank : Nat
deriving DecidableEq

/-- One row of the `azure_ai.rank` result set: a document id (text), a rank,
and a relevance score. -/
structure RankOut where
  id : String
  rank : Nat
  score : ℚ
deriving DecidableEq

/-- A combined row joined with its ranker rank and score. -/
structure RerankedRow where
  combined : CombinedRow
  ranker_rank : Nat
  ranker_score : ℚ
deriving DecidableEq

/-- Attach consecutive row numbers starting at `n` (`ROW_NUMBER()`). -/
def withRowNumbers (n : Nat) : List FusedRow → List CombinedRow
  | [] => []
  | f :: fs => ⟨f, n⟩ :: withRowNumbers (n + 1) fs

/-- Sort order of the reranked rows: ascending by ranker rank. -/
def rrLE (a b : RerankedRow) : Prop := a.ranker_rank ≤ b.ranker_rank

instance : DecidableRel rrLE :=
  fun a b => inferInstanceAs (Decidable (a.ranker_rank ≤ b.ranker_rank))

instance : IsTotal RerankedRow rrLE := ⟨fun a b => Nat.le_total a.ranker_rank b.ranker_rank⟩

instance : IsTrans RerankedRow rrLE := ⟨fun _ _ _ h h2 => Nat.le_trans h h2⟩

/-- The `base_candidates` CTE: top 15 products by distance over the whole
table `UNION` top 15 by text score; `UNION` deduplicates rows. -/
def base_candidates (prods : List Product) (dist : Product → Option ℚ)
    (tsMatch : Product → Bool) (score : Product → ℚ) : List Product :=
  (((List.insertionSort brLE (denseRanked prods dist)).take 15).map BranchRow.prod ++
    ((List.insertionSort brGE (sparseRanked prods tsMatch score)).take 15).map
      BranchRow.prod).dedup

/-- The ranker script's `vector_search` CTE: dense re-ranking of the pooled
base candidates, `RANK()` over the pool, `LIMIT 20`. -/
def vector_search (prods : List Product) (dist : Product → Option ℚ)
    (tsMatch : Product → Bool) (score : Product → ℚ) : List BranchRow :=
  denseBranch (base_candidates prods dist tsMatch score) dist 20

/-- The ranker script's `keyword_search` CTE: sparse re-ranking of the pooled
base candidates, `RANK()` over the pool, `LIMIT 20`. -/
def keyword_search (prods : List Product) (dist : Product → Option ℚ)
    (tsMatch : Product → Bool) (score : Product → ℚ) : List BranchRow :=
  sparseBranch (base_candidates prods dist tsMatch score) tsMatch score 20

/-- The fused rows of `rrf_combined` with their `rrf_rank`
(`ROW_NUMBER() OVER (ORDER BY rrf_score DESC)`), before `LIMIT 50`. -/
def rrf_ranked (k : ℚ) (vs ks : List BranchRow) : List CombinedRow :=
  withRowNumbers 1 (List.insertionSort fuGE (fuse k vs ks))

/-- The `rrf_combined` CTE: score-descending fused rows with `rrf_rank`,
`LIMIT 50`. -/
def rrf_combined (k : ℚ) (vs ks : List BranchRow) : List CombinedRow :=
  (rrf_ranked k vs ks).take 50

/-- The `document_contents` array sent to `azure_ai.rank`:
`product_name || ': ' || product_description` in `rrf_score`-descending
order (the order of `rrf_combined`). -/
def ranker_docs (rows : List CombinedRow) : List String :=
  rows.map (fun r => r.row.product_name ++ ": " ++ r.row.product_description)

/-- The `document_ids` array sent to `azure_ai.rank`: `product_id::text` in
the same order. -/
def ranker_ids (rows : List CombinedRow) : List String :=
  rows.map (fun r => toString r.row.product_id)

/-- The `reranked` CTE body: `rrf_combined` inner-joined with the ranker
results on `rr.id = rrf.product_id::text`. -/
def reranked (rows : List CombinedRow) (rout : List RankOut) :
    List RerankedRow :=
  rows.flatMap (fun r =>
    (rout.filter (fun o => o.id == toString r.row.product_id)).map
      (fun o => ⟨r, o.rank, o.score⟩))

/-- The final `SELECT ... ORDER BY ranker_rank ASC LIMIT 5`. -/
def final_results (rows : List CombinedRow) (rout : List RankOut) :
    List RerankedRow :=
  (List.insertionSort rrLE (reranked rows rout)).take 5

/-- The whole reranking pipeline, with the Reranker (`azure_ai.rank`)
abstracted as a function of the query and the two arrays. -/
def triple_rrf (query : String) (k : ℚ) (vs ks : List BranchRow)
    (ranker : String → List String → List String → List RankOut) :
    List RerankedRow :=
  let rows := rrf_combined k vs ks
  final_results rows (ranker query (ranker_docs rows) (ranker_ids rows))

end HybridRanker

/-! ### General lemmas about the embedded operations -/

/-- The product ids of a list of branch rows. -/
def rowIds (l : List BranchRow) : List Nat :=
  l.map (fun r => r.prod.product_id)

theorem findRow_eq_none_iff {i : Nat} {l : List BranchRow} :
    findRow i l = none ↔ ∀ r ∈ l, r.prod.product_id ≠ i := by
  simp [findRow, List.find?_eq_none]

theorem findRow_mem {i : Nat} {l : List BranchRow} {r : BranchRow}
    (h : findRow i l = some r) : r ∈ l ∧ r.prod.product_id = i := by
  refine ⟨List.mem_of_find?_eq_some h, ?_⟩
  have := List.find?_some h
  simpa using this

/-- With unique ids, looking up the id of a member returns that member. -/
theorem findRow_self {l : List BranchRow} (hnd : (rowIds l).Nodup)
    {r : BranchRow} (hr : r ∈ l) : findRow r.prod.product_id l = some r := by
  induction l with
  | nil => cases hr
  | cons a t ih =>
    rw [rowIds, List.map_cons, List.nodup_cons] at hnd
    rcases List.mem_cons.mp hr with h | h
    · subst h
      simp [findRow, List.find?_cons]
    · have hne : a.prod.product_id ≠ r.prod.product_id := by
        intro he
        exact hnd.1 (he ▸ List.mem_map_of_mem (fun x => x.prod.product_id) h)
      simp only [findRow, List.find?_cons]
      have hbe : (a.prod.product_id == r.prod.product_id) = false := by
        simpa using hne
      rw [hbe]
      exact ih hnd.2 h

@[simp] theorem fuseRow_product_id_left (k : ℚ) (v : BranchRow)
    (w : Option BranchRow) :
    (fuseRow k (some v) w).product_id = v.prod.product_id := rfl

@[simp] theorem fuseRow_product_id_right (k : ℚ) (w : BranchRow) :
    (fuseRow k none (some w)).product_id = w.prod.product_id := rfl

@[simp] theorem fuseRow_vector_rank (k : ℚ) (v w : Option BranchRow) :
    (fuseRow k v w).vector_rank = v.map BranchRow.rank := rfl

@[simp] theorem fuseRow_keyword_rank (k : ℚ) (v w : Option BranchRow) :
    (fuseRow k v w).keyword_rank = w.map BranchRow.rank := rfl

@[simp] theorem fuseRow_rrf_score (k : ℚ) (v w : Option BranchRow) :
    (fuseRow k v w).rrf_score =
      contrib k (v.map BranchRow.rank) + contrib k (w.map BranchRow.rank) := rfl

/-- Every fused row arises from the join: either a dense row paired with its
keyword lookup, or an unmatched keyword row. -/
theorem mem_fuse_iff {k : ℚ} {vs ks : List BranchRow} {f : FusedRow} :
    f ∈ fuse k vs ks ↔
      (∃ v ∈ vs, f = fuseRow k (some v) (findRow v.prod.product_id ks)) ∨
      (∃ w ∈ ks, findRow w.prod.product_id vs = none ∧
        f = fuseRow k none (some w)) := by
  simp only [fuse, List.mem_append, List.mem_map, List.mem_filter,
    Option.isNone_iff_eq_none, decide_eq_true_eq]
  constructor
  · rintro (⟨v, hv, rfl⟩ | ⟨w, ⟨hw, hw2⟩, rfl⟩)
    · exact Or.inl ⟨v, hv, rfl⟩
    · exact Or.inr ⟨w, hw, hw2, rfl⟩
  · rintro (⟨v, hv, rfl⟩ | ⟨w, hw, hw2, rfl⟩)
    · exact Or.inl ⟨v, hv, rfl⟩
    · exact Or.inr ⟨w, ⟨hw, hw2⟩, rfl⟩

theorem mem_fuse_left {k : ℚ} {vs ks : List BranchRow} {v : BranchRow}
    (hv : v ∈ vs) :
    fuseRow k (some v) (findRow v.prod.product_id ks) ∈ fuse k vs ks :=
  mem_fuse_iff.mpr (Or.inl ⟨v, hv, rfl⟩)

/-- A present rank contributes a strictly positive reciprocal. -/
theorem contrib_pos {k : ℚ} (hk : 0 < k) (r : Nat) :
    0 < contrib k (some r) := by
  have : (0 : ℚ) < k + (r : ℚ) := by positivity
  simpa [contrib] using this

@[simp] theorem contrib_none (k : ℚ) : contrib k none = 0 := rfl

/-! ### Claim theorems -/

unseal Rat.mul Rat.add Rat.inv

/-- C1: every row of the fused candidate set (the full outer join of the
dense and sparse result lists) carries as `vector_rank`/`keyword_rank`
exactly the ranks found for its id in the two branch lists, and its
`rrf_score` is `contrib k vector_rank + contrib k keyword_rank`, a missing
branch contributing `0`; a row present in only one branch scores exactly
that single contribution, which is strictly positive. -/
theorem rrf_score_is_sum_of_reciprocal_contributions (k : ℚ) (hk : 0 < k)
    (vs ks : List BranchRow) (hvs : (rowIds vs).Nodup)
    (hks : (rowIds ks).Nodup) :
    ∀ f ∈ fuse k vs ks,
      f.vector_rank = (findRow f.product_id vs).map BranchRow.rank ∧
      f.keyword_rank = (findRow f.product_id ks).map BranchRow.rank ∧
      f.rrf_score = contrib k f.vector_rank + contrib k f.keyword_rank ∧
      (f.vector_rank = none →
        f.rrf_score = contrib k f.keyword_rank ∧ 0 < f.rrf_score) ∧
      (f.keyword_rank = none →
        f.rrf_score = contrib k f.vector_rank ∧ 0 < f.rrf_score) := by
  intro f hf
  rcases mem_fuse_iff.mp hf with ⟨v, hv, rfl⟩ | ⟨w, hw, hwnone, rfl⟩
  · have h1 : findRow (fuseRow k (some v) (findRow v.prod.product_id ks)).product_id vs
        = some v := by
      rw [fuseRow_product_id_left]; exact findRow_self hvs hv
    refine ⟨?_, ?_, ?_, ?_, ?_⟩
    · rw [h1]; rfl
    · rw [fuseRow_product_id_left]; rfl
    · rfl
    · intro hnone; simp at hnone
    · intro hnone
      simp only [fuseRow_keyword_rank, Option.map_eq_none'] at hnone
      simp only [fuseRow_rrf_score, fuseRow_vector_rank, hnone, Option.map_none',
        contrib_none, add_zero, Option.map_some']
      exact ⟨trivial, contrib_pos hk v.rank⟩
  · have h1 : findRow (fuseRow k none (some w)).product_id vs = none := by
      rw [fuseRow_product_id_right]; exact hwnone
    have h2 : findRow (fuseRow k none (some w)).product_id ks = some w := by
      rw [fuseRow_product_id_right]; exact findRow_self hks hw
    refine ⟨?_, ?_, ?_, ?_, ?_⟩
    · rw [h1]; rfl
    · rw [h2]; rfl
    · rfl
    · intro _
      simp only [fuseRow_rrf_score, fuseRow_keyword_rank, Option.map_none',
        contrib_none, zero_add, Option.map_some']
      exact ⟨trivial, contrib_pos hk w.rank⟩
    · intro hnone; simp at hnone

/- Concrete data shared by the witnesses: three products, a dense branch
returning products 1 and 2, a sparse branch returning product 1. -/
namespace Ex

def p1 : Product := ⟨1, "SKU1", "Garden Hose", "a 25 foot garden hose"⟩

def p2 : Product := ⟨2, "SKU2", "Watering Can", "a green watering can"⟩

def p3 : Product := ⟨3, "SKU3", "Drip Kit", "a drip irrigation kit"⟩

def vs0 : List BranchRow := [⟨p1, 1/10, 1⟩, ⟨p2, 2/10, 2⟩]

def ks0 : List BranchRow := [⟨p1, 5, 3⟩]

def f1 : FusedRow := fuseRow 60 (some ⟨p1, 1/10, 1⟩) (findRow 1 ks0)

def tieProds : List Product := [p1, p2, p3]

def tieDist (p : Product) : Option ℚ :=
  some (if p.product_id ≤ 2 then 1 else 3)

def ta : BranchRow := ⟨p1, 1, 1⟩

def tb : BranchRow := ⟨p2, 1, 1⟩

def tc : BranchRow := ⟨p3, 3, 3⟩

def c1 : HybridRanker.CombinedRow := ⟨fuseRow 60 (some ⟨p1, 1/10, 1⟩) (findRow 1 ks0), 1⟩

def c2 : HybridRanker.CombinedRow := ⟨fuseRow 60 (some ⟨p2, 2/10, 2⟩) (findRow 2 ks0), 2⟩

def rout0 : List HybridRanker.RankOut := [⟨"2", 1, 9⟩, ⟨"1", 2, 5⟩]

def rout1 : List HybridRanker.RankOut := [⟨"2", 1, 9⟩]

def ranker0 (_ : String) (_ _ : List String) : List HybridRanker.RankOut :=
  rout0

def rr2 : HybridRanker.RerankedRow := ⟨c2, 1, 9⟩

def vsT : List BranchRow := [⟨p1, 1, 1⟩]

def ksT : List BranchRow := [⟨p2, 5, 1⟩]

def fA : FusedRow := fuseRow 60 (some ⟨p1, 1, 1⟩) (findRow 1 ksT)

def fB : FusedRow := fuseRow 60 none (some ⟨p2, 5, 1⟩)

def outA : List FusedRow := [fA, fB]

def outB : List FusedRow := [fB, fA]

def cProds : List Product := (List.range 17).map (fun i => ⟨i + 1, "S", "N", "D"⟩)

def cDist (p : Product) : Option ℚ := some (p.product_id : ℚ)

def cMatch (p : Product) : Bool := p.product_id == 17

def cScore (_ : Product) : ℚ := 1

def bProds : List Product := (List.range 21).map (fun i => ⟨i + 1, "S", "N", "D"⟩)

def bMatch (p : Product) : Bool := decide (16 ≤ p.product_id)

def bScore (p : Product) : ℚ := ((22 - (p.product_id : Int) : Int) : ℚ)

def dProds : List Product := [p1, p2]

def dMatch (p : Product) : Bool := p.product_id == 2

def dScore (_ : Product) : ℚ := 7

def qW : BranchRow := ⟨p2, 7, 1⟩

def ex21 : Product := ⟨21, "S", "N", "D"⟩

def exRow21 : BranchRow :=
  ⟨ex21, ((21 : Nat) : ℚ), rankAsc (densePairs bProds cDist) ((21 : Nat) : ℚ)⟩

def w1 : BranchRow := ⟨⟨1, "S", "N", "D"⟩, ((1 : Nat) : ℚ), 1⟩

end Ex

/-- Witness for C1: the fused row of product 1 in a concrete two-branch
instance satisfies the conjunction at the theorem's hypotheses. -/
theorem rrf_score_is_sum_of_reciprocal_contributions_witness :
    Ex.f1 ∈ fuse 60 Ex.vs0 Ex.ks0 ∧
      (Ex.f1.vector_rank = (findRow Ex.f1.product_id Ex.vs0).map BranchRow.rank ∧
       Ex.f1.keyword_rank = (findRow Ex.f1.product_id Ex.ks0).map BranchRow.rank ∧
       Ex.f1.rrf_score = contrib 60 Ex.f1.vector_rank + contrib 60 Ex.f1.keyword_rank ∧
       (Ex.f1.vector_rank = none →
         Ex.f1.rrf_score = contrib 60 Ex.f1.keyword_rank ∧ 0 < Ex.f1.rrf_score) ∧
       (Ex.f1.keyword_rank = none →
         Ex.f1.rrf_score = contrib 60 Ex.f1.vector_rank ∧ 0 < Ex.f1.rrf_score)) :=
  ⟨by decide,
    rrf_score_is_sum_of_reciprocal_contributions 60 (by decide) Ex.vs0 Ex.ks0
      (by decide) (by decide) Ex.f1 (by decide)⟩

/-- Rows of the dense window carry `rankAsc` of their key. -/
theorem mem_denseRanked {prods : List Product} {dist : Product → Option ℚ}
    {a : BranchRow} (ha : a ∈ denseRanked prods dist) :
    (a.prod, a.key) ∈ densePairs prods dist ∧
      a.rank = rankAsc (densePairs prods dist) a.key := by
  rcases List.mem_map.mp ha with ⟨q, hq, rfl⟩
  exact ⟨hq, rfl⟩

/-- Rows of the sparse window carry `rankDesc` of their key. -/
theorem mem_sparseRanked {prods : List Product} {tsMatch : Product → Bool}
    {score : Product → ℚ} {a : BranchRow}
    (ha : a ∈ sparseRanked prods tsMatch score) :
    (a.prod, a.key) ∈ sparsePairs prods tsMatch score ∧
      a.rank = rankDesc (sparsePairs prods tsMatch score) a.key := by
  rcases List.mem_map.mp ha with ⟨q, hq, rfl⟩
  exact ⟨hq, rfl⟩

theorem mem_densePairs_iff {prods : List Product} {dist : Product → Option ℚ}
    {p : Product} {d : ℚ} :
    (p, d) ∈ densePairs prods dist ↔ p ∈ prods ∧ dist p = some d := by
  simp only [densePairs, List.mem_filterMap, Option.map_eq_some', Prod.mk.injEq]
  constructor
  · rintro ⟨a, ha, d2, hd2, rfl, rfl⟩
    exact ⟨ha, hd2⟩
  · rintro ⟨hp, hd⟩
    exact ⟨p, hp, d, hd, rfl, rfl⟩

theorem mem_sparsePairs_iff {prods : List Product} {tsMatch : Product → Bool}
    {score : Product → ℚ} {p : Product} {d : ℚ} :
    (p, d) ∈ sparsePairs prods tsMatch score ↔
      p ∈ prods ∧ tsMatch p = true ∧ d = score p := by
  simp only [sparsePairs, List.mem_map, List.mem_filter, Prod.mk.injEq]
  constructor
  · rintro ⟨a, ⟨ha, hm⟩, rfl, rfl⟩
    exact ⟨ha, hm, rfl⟩
  · rintro ⟨hp, hm, rfl⟩
    exact ⟨p, ⟨hp, hm⟩, rfl, rfl⟩

/-- The products carried by the dense pairs form a sublist of the pool. -/
theorem densePairs_fst_sublist (prods : List Product)
    (dist : Product → Option ℚ) :
    ((densePairs prods dist).map Prod.fst).Sublist prods := by
  induction prods with
  | nil => exact List.Sublist.refl []
  | cons p t ih =>
    rw [densePairs, List.filterMap_cons]
    cases hd : dist p with
    | none => exact (ih : _).cons p
    | some d => exact (List.map_cons _ _ _ ▸ (ih : _).cons₂ p)

/-- Rows surviving a branch's `ORDER BY ... LIMIT` come from its window. -/
theorem mem_denseBranch {prods : List Product} {dist : Product → Option ℚ}
    {n : Nat} {r : BranchRow} (h : r ∈ denseBranch prods dist n) :
    r ∈ denseRanked prods dist :=
  (List.perm_insertionSort brLE _).mem_iff.mp (List.mem_of_mem_take h)

theorem mem_sparseBranch {prods : List Product} {tsMatch : Product → Bool}
    {score : Product → ℚ} {n : Nat} {r : BranchRow}
    (h : r ∈ sparseBranch prods tsMatch score n) :
    r ∈ sparseRanked prods tsMatch score :=
  (List.perm_insertionSort brGE _).mem_iff.mp (List.mem_of_mem_take h)

theorem denseRanked_rowIds (prods : List Product) (dist : Product → Option ℚ) :
    rowIds (denseRanked prods dist) =
      ((densePairs prods dist).map Prod.fst).map (fun p => p.product_id) := by
  simp only [rowIds, denseRanked, List.map_map]
  rfl

theorem sparseRanked_rowIds (prods : List Product) (tsMatch : Product → Bool)
    (score : Product → ℚ) :
    rowIds (sparseRanked prods tsMatch score) =
      (prods.filter tsMatch).map (fun p => p.product_id) := by
  simp only [rowIds, sparseRanked, sparsePairs, List.map_map]
  rfl

/-- A pool with unique product ids yields a dense branch with unique ids. -/
theorem denseBranch_nodup_ids {prods : List Product}
    {dist : Product → Option ℚ} {n : Nat}
    (h : (prods.map (fun p => p.product_id)).Nodup) :
    (rowIds (denseBranch prods dist n)).Nodup := by
  have h1 : (rowIds (denseRanked prods dist)).Nodup := by
    rw [denseRanked_rowIds]
    exact h.sublist (List.Sublist.map _ (densePairs_fst_sublist prods dist))
  have h2 : (rowIds (List.insertionSort brLE (denseRanked prods dist))).Nodup :=
    h1.perm ((List.perm_insertionSort brLE _).map _).symm
  exact h2.sublist (List.Sublist.map _ (List.take_sublist n _))

/-- A pool with unique product ids yields a sparse branch with unique ids. -/
theorem sparseBranch_nodup_ids {prods : List Product}
    {tsMatch : Product → Bool} {score : Product → ℚ} {n : Nat}
    (h : (prods.map (fun p => p.product_id)).Nodup) :
    (rowIds (sparseBranch prods tsMatch score n)).Nodup := by
  have h1 : (rowIds (sparseRanked prods tsMatch score)).Nodup := by
    rw [sparseRanked_rowIds]
    exact h.sublist (List.Sublist.map _ (List.filter_sublist prods))
  have h2 : (rowIds (List.insertionSort brGE
      (sparseRanked prods tsMatch score))).Nodup :=
    h1.perm ((List.perm_insertionSort brGE _).map _).symm
  exact h2.sublist (List.Sublist.map _ (List.take_sublist n _))

/-- Every pooled base candidate is a product of the table. -/
theorem base_candidates_subset {prods : List Product}
    {dist : Product → Option ℚ} {tsMatch : Product → Bool}
    {score : Product → ℚ} {p : Product}
    (h : p ∈ HybridRanker.base_candidates prods dist tsMatch score) :
    p ∈ prods := by
  rw [HybridRanker.base_candidates, List.mem_dedup, List.mem_append] at h
  rcases h with h | h
  · rcases List.mem_map.mp h with ⟨r, hr, rfl⟩
    have hr2 : r ∈ denseRanked prods dist :=
      (List.perm_insertionSort brLE _).mem_iff.mp (List.mem_of_mem_take hr)
    obtain ⟨hp, -⟩ := mem_denseRanked hr2
    exact (mem_densePairs_iff.mp hp).1
  · rcases List.mem_map.mp h with ⟨r, hr, rfl⟩
    have hr2 : r ∈ sparseRanked prods tsMatch score :=
      (List.perm_insertionSort brGE _).mem_iff.mp (List.mem_of_mem_take hr)
    obtain ⟨hp, -⟩ := mem_sparseRanked hr2
    exact (mem_sparsePairs_iff.mp hp).1

/-- With unique table ids, the pooled base candidates have unique ids. -/
theorem base_candidates_nodup_ids {prods : List Product}
    {dist : Product → Option ℚ} {tsMatch : Product → Bool}
    {score : Product → ℚ}
    (h : (prods.map (fun p => p.product_id)).Nodup) :
    ((HybridRanker.base_candidates prods dist tsMatch score).map
      (fun p => p.product_id)).Nodup := by
  refine List.Nodup.map_on ?_ (List.nodup_dedup _)
  intro x hx y hy hxy
  exact List.inj_on_of_nodup_map h (base_candidates_subset hx)
    (base_candidates_subset hy) hxy

/-- C7: with `k = 60`, product 1 (vector rank 1, keyword rank 3) scores
`1/61 + 1/63` and product 2 (vector rank 2 only) scores `1/62`; the fused
`ORDER BY rrf_score DESC` output lists product 1 strictly above product 2,
by exact rational arithmetic `1/61 + 1/63 > 1/62`. -/
theorem scenario_k60_rank1_rank3_beats_rank2 :
    (HybridRRF.rrf_results 60 Ex.vs0 Ex.ks0).map
        (fun f => (f.product_id, f.rrf_score)) =
      [(1, 1/61 + 1/63), (2, 1/62)] ∧ ((1:ℚ)/61 + 1/63 > 1/62) := by
  decide

/-- The count of rows satisfying either of two mutually exclusive predicates
is the sum of the two counts. -/
theorem countP_or_of_disjoint {α : Type} (l : List α) (p q : α → Bool)
    (h : ∀ a, ¬(p a = true ∧ q a = true)) :
    l.countP (fun a => p a || q a) = l.countP p + l.countP q := by
  induction l with
  | nil => simp
  | cons a t ih =>
    by_cases hp : p a = true
    · have hq : ¬(q a = true) := fun hq => h a ⟨hp, hq⟩
      rw [List.countP_cons_of_pos _ _ (by simp [hp]),
        List.countP_cons_of_pos _ _ hp, List.countP_cons_of_neg _ _ hq, ih]
      omega
    · by_cases hq : q a = true
      · rw [List.countP_cons_of_pos _ _ (by simp [hq]),
          List.countP_cons_of_neg _ _ hp, List.countP_cons_of_pos _ _ hq, ih]
        omega
      · rw [List.countP_cons_of_neg _ _ (by simp [hp, hq]),
          List.countP_cons_of_neg _ _ hp, List.countP_cons_of_neg _ _ hq, ih]

/-- Two distinct members both satisfying `p` force a count of at least two. -/
theorem two_le_countP {α : Type} [DecidableEq α] {l : List α} {x y : α}
    {p : α → Bool} (hx : x ∈ l) (hy : y ∈ l) (hne : x ≠ y)
    (hpx : p x = true) (hpy : p y = true) : 2 ≤ l.countP p := by
  have hperm : l.Perm (x :: l.erase x) := List.perm_cons_erase hx
  have hy2 : y ∈ l.erase x := (List.mem_erase_of_ne (Ne.symm hne)).mpr hy
  have h1 : 0 < (l.erase x).countP p :=
    List.countP_pos_iff.mpr ⟨y, hy2, hpy⟩
  have h2 : l.countP p = (x :: l.erase x).countP p := hperm.countP_eq p
  rw [h2, List.countP_cons_of_pos _ _ hpx]
  omega

/-- `RANK()` ties skip the following position: if two distinct window rows
share key `x`, no row gets rank `rankAsc pairs x + 1`. -/
theorem rankAsc_skip {pairs : List (Product × ℚ)} {x y : Product × ℚ}
    (hx : x ∈ pairs) (hy : y ∈ pairs) (hkey : y.2 = x.2) (hne : x ≠ y)
    (z : ℚ) : rankAsc pairs z ≠ rankAsc pairs x.2 + 1 := by
  rcases le_or_lt z x.2 with hle | hlt
  · have : pairs.countP (fun q => q.2 < z) ≤ pairs.countP (fun q => q.2 < x.2) :=
      List.countP_mono_left (fun q _ hq => by
        exact decide_eq_true (lt_of_lt_of_le (of_decide_eq_true hq) hle))
    simp only [rankAsc]
    omega
  · have hsub : pairs.countP (fun q => (q.2 < x.2 : Bool) || (q.2 == x.2)) ≤
        pairs.countP (fun q => q.2 < z) := by
      refine List.countP_mono_left (fun q _ hq => ?_)
      rcases Bool.or_eq_true_iff.mp hq with h | h
      · exact decide_eq_true (lt_trans (of_decide_eq_true h) hlt)
      · exact decide_eq_true (lt_of_le_of_lt (le_of_eq (eq_of_beq h)) hlt)
    have hdisj : ∀ q : Product × ℚ,
        ¬((q.2 < x.2 : Bool) = true ∧ (q.2 == x.2) = true) := by
      rintro q ⟨h1, h2⟩
      exact absurd (eq_of_beq h2) (ne_of_lt (of_decide_eq_true h1))
    have hsum := countP_or_of_disjoint pairs
      (fun q => (q.2 < x.2 : Bool)) (fun q => q.2 == x.2) hdisj
    have htwo : 2 ≤ pairs.countP (fun q => q.2 == x.2) :=
      two_le_countP hx hy hne (by simp) (by simp [hkey])
    intro hcontra
    have hd : 1 + pairs.countP (fun q => q.2 < z) =
        1 + pairs.countP (fun q => q.2 < x.2) + 1 := by
      simpa [rankAsc] using hcontra
    simp only [] at hsum
    omega

/-- `RANK()` ties skip the following position, descending-order variant. -/
theorem rankDesc_skip {pairs : List (Product × ℚ)} {x y : Product × ℚ}
    (hx : x ∈ pairs) (hy : y ∈ pairs) (hkey : y.2 = x.2) (hne : x ≠ y)
    (z : ℚ) : rankDesc pairs z ≠ rankDesc pairs x.2 + 1 := by
  rcases le_or_lt x.2 z with hle | hlt
  · have : pairs.countP (fun q => z < q.2) ≤ pairs.countP (fun q => x.2 < q.2) :=
      List.countP_mono_left (fun q _ hq => by
        exact decide_eq_true (lt_of_le_of_lt hle (of_decide_eq_true hq)))
    simp only [rankDesc]
    omega
  · have hsub : pairs.countP (fun q => (x.2 < q.2 : Bool) || (q.2 == x.2)) ≤
        pairs.countP (fun q => z < q.2) := by
      refine List.countP_mono_left (fun q _ hq => ?_)
      rcases Bool.or_eq_true_iff.mp hq with h | h
      · exact decide_eq_true (lt_trans hlt (of_decide_eq_true h))
      · exact decide_eq_true (lt_of_lt_of_le hlt (le_of_eq (eq_of_beq h).symm))
    have hdisj : ∀ q : Product × ℚ,
        ¬((x.2 < q.2 : Bool) = true ∧ (q.2 == x.2) = true) := by
      rintro q ⟨h1, h2⟩
      exact absurd (eq_of_beq h2) (ne_of_gt (of_decide_eq_true h1))
    have hsum := countP_or_of_disjoint pairs
      (fun q => (x.2 < q.2 : Bool)) (fun q => q.2 == x.2) hdisj
    have htwo : 2 ≤ pairs.countP (fun q => q.2 == x.2) :=
      two_le_countP hx hy hne (by simp) (by simp [hkey])
    intro hcontra
    have hd : 1 + pairs.countP (fun q => z < q.2) =
        1 + pairs.countP (fun q => x.2 < q.2) + 1 := by
      simpa [rankDesc] using hcontra
    simp only [] at hsum
    omega

/-- C10: per-branch ranks follow `RANK()` semantics.  In both windows (dense
ascending by distance, sparse descending by score), two rows with exactly
equal keys receive the same rank and hence identical reciprocal-rank
contributions; and when such tied rows are distinct products the next rank
value is skipped — no row of the window receives rank `tied rank + 1`, so
the assignment need not be a permutation of `1..M`. -/
theorem per_branch_rank_has_RANK_tie_semantics (prods : List Product)
    (dist : Product → Option ℚ) (tsMatch : Product → Bool)
    (score : Product → ℚ) (k : ℚ) :
    (∀ a ∈ denseRanked prods dist, ∀ b ∈ denseRanked prods dist,
      a.key = b.key →
        a.rank = b.rank ∧ contrib k (some a.rank) = contrib k (some b.rank)) ∧
    (∀ a ∈ denseRanked prods dist, ∀ b ∈ denseRanked prods dist,
      a.key = b.key → a.prod ≠ b.prod →
        ∀ c ∈ denseRanked prods dist, c.rank ≠ a.rank + 1) ∧
    (∀ a ∈ sparseRanked prods tsMatch score, ∀ b ∈ sparseRanked prods tsMatch score,
      a.key = b.key →
        a.rank = b.rank ∧ contrib k (some a.rank) = contrib k (some b.rank)) ∧
    (∀ a ∈ sparseRanked prods tsMatch score, ∀ b ∈ sparseRanked prods tsMatch score,
      a.key = b.key → a.prod ≠ b.prod →
        ∀ c ∈ sparseRanked prods tsMatch score, c.rank ≠ a.rank + 1) := by
  refine ⟨?_, ?_, ?_, ?_⟩
  · intro a ha b hb hkey
    obtain ⟨-, hra⟩ := mem_denseRanked ha
    obtain ⟨-, hrb⟩ := mem_denseRanked hb
    have : a.rank = b.rank := by rw [hra, hrb, hkey]
    exact ⟨this, by rw [this]⟩
  · intro a ha b hb hkey hne c hc
    obtain ⟨hpa, hra⟩ := mem_denseRanked ha
    obtain ⟨hpb, hrb⟩ := mem_denseRanked hb
    obtain ⟨-, hrc⟩ := mem_denseRanked hc
    have hnepair : (a.prod, a.key) ≠ (b.prod, b.key) := by
      intro he
      exact hne (congrArg Prod.fst he)
    rw [hrc, hra]
    exact rankAsc_skip hpa hpb (by rw [hkey]) hnepair c.key
  · intro a ha b hb hkey
    obtain ⟨-, hra⟩ := mem_sparseRanked ha
    obtain ⟨-, hrb⟩ := mem_sparseRanked hb
    have : a.rank = b.rank := by rw [hra, hrb, hkey]
    exact ⟨this, by rw [this]⟩
  · intro a ha b hb hkey hne c hc
    obtain ⟨hpa, hra⟩ := mem_sparseRanked ha
    obtain ⟨hpb, hrb⟩ := mem_sparseRanked hb
    obtain ⟨-, hrc⟩ := mem_sparseRanked hc
    have hnepair : (a.prod, a.key) ≠ (b.prod, b.key) := by
      intro he
      exact hne (congrArg Prod.fst he)
    rw [hrc, hra]
    exact rankDesc_skip hpa hpb (by rw [hkey]) hnepair c.key

/-- Witness for C10: products 1 and 2 tie at distance 1 in a concrete dense
window; both receive rank 1, contribute equally, and product 3 (distance 3)
has rank 3, not 2. -/
theorem per_branch_rank_has_RANK_tie_semantics_witness :
    Ex.ta ∈ denseRanked Ex.tieProds Ex.tieDist ∧
    Ex.tb ∈ denseRanked Ex.tieProds Ex.tieDist ∧
    Ex.tc ∈ denseRanked Ex.tieProds Ex.tieDist ∧
    Ex.ta.key = Ex.tb.key ∧ Ex.ta.prod ≠ Ex.tb.prod ∧
    (Ex.ta.rank = Ex.tb.rank ∧
      contrib 60 (some Ex.ta.rank) = contrib 60 (some Ex.tb.rank)) ∧
    Ex.tc.rank ≠ Ex.ta.rank + 1 :=
  ⟨by decide, by decide, by decide, by decide, by decide,
    (per_branch_rank_has_RANK_tie_semantics Ex.tieProds Ex.tieDist
      (fun _ => true) (fun _ => 0) 60).1 Ex.ta (by decide) Ex.tb (by decide)
      (by decide),
    (per_branch_rank_has_RANK_tie_semantics Ex.tieProds Ex.tieDist
      (fun _ => true) (fun _ => 0) 60).2.1 Ex.ta (by decide) Ex.tb (by decide)
      (by decide) (by decide) Ex.tc (by decide)⟩

/-- C5 counterexample: the query string of a single space tokenizes to zero
terms, and the sparse branch then raises a tsquery syntax error instead of
returning an empty result set. -/
theorem empty_query_sparse_branch_raises :
    python_split " " = [] ∧
    HybridRRF.keyword_search [Ex.p1] " " (fun _ => true) (fun _ => 0) =
      Except.error "syntax error in tsquery" := by
  exact ⟨rfl, rfl⟩

/-- C5 (amended): a query that tokenizes to zero whitespace-separated terms
produces the empty tsquery text, on which `to_tsquery` raises a syntax
error; the sparse branch therefore fails (and with it the whole hybrid
statement) rather than returning an empty result set. -/
theorem empty_tokenization_raises_tsquery_error (prods : List Product)
    (q : String) (tsMatch : Product → Bool) (score : Product → ℚ)
    (h : python_split q = []) :
    HybridRRF.keyword_search prods q tsMatch score =
      Except.error "syntax error in tsquery" := by
  have hq : mk_tsquery q = "" := by rw [mk_tsquery, h]; rfl
  unfold HybridRRF.keyword_search
  rw [hq]
  rfl

/-- Witness for the amended C5 at the empty query string. -/
theorem empty_tokenization_raises_tsquery_error_witness :
    python_split "" = [] ∧
    HybridRRF.keyword_search [Ex.p1] "" (fun _ => true) (fun _ => 0) =
      Except.error "syntax error in tsquery" :=
  ⟨rfl, empty_tokenization_raises_tsquery_error [Ex.p1] ""
    (fun _ => true) (fun _ => 0) rfl⟩

theorem withRowNumbers_map_rank (n : Nat) (l : List FusedRow) :
    (HybridRanker.withRowNumbers n l).map (fun r => r.rrf_rank) =
      List.range' n l.length := by
  induction l generalizing n with
  | nil => rfl
  | cons f fs ih =>
    simp only [HybridRanker.withRowNumbers, List.map_cons, List.length_cons,
      List.range'_succ, ih]

theorem withRowNumbers_map_row (n : Nat) (l : List FusedRow) :
    (HybridRanker.withRowNumbers n l).map (fun r => r.row) = l := by
  induction l generalizing n with
  | nil => rfl
  | cons f fs ih => simp only [HybridRanker.withRowNumbers, List.map_cons, ih]

theorem mem_withRowNumbers {n : Nat} {l : List FusedRow}
    {b : HybridRanker.CombinedRow} (hb : b ∈ HybridRanker.withRowNumbers n l) :
    n ≤ b.rrf_rank ∧ b.row ∈ l := by
  induction l generalizing n with
  | nil => cases hb
  | cons f fs ih =>
    rcases List.mem_cons.mp hb with rfl | h
    · exact ⟨Nat.le_refl n, List.mem_cons_self _ _⟩
    · obtain ⟨h1, h2⟩ := ih h
      exact ⟨Nat.le_of_succ_le h1, List.mem_cons_of_mem _ h2⟩

theorem withRowNumbers_pairwise {S : FusedRow → FusedRow → Prop}
    {l : List FusedRow} (hl : l.Pairwise S) (n : Nat) :
    (HybridRanker.withRowNumbers n l).Pairwise
      (fun a b => a.rrf_rank < b.rrf_rank ∧ S a.row b.row) := by
  induction l generalizing n with
  | nil => exact List.Pairwise.nil
  | cons f fs ih =>
    rcases List.pairwise_cons.mp hl with ⟨hf, hfs⟩
    refine List.pairwise_cons.mpr ⟨?_, ih hfs (n + 1)⟩
    intro b hb
    obtain ⟨h1, h2⟩ := mem_withRowNumbers hb
    exact ⟨Nat.lt_of_succ_le h1, hf b.row h2⟩

/-- The fused ids are the dense-side ids followed by the unmatched
keyword-side ids. -/
theorem fuse_map_product_id (k : ℚ) (vs ks : List BranchRow) :
    (fuse k vs ks).map (fun f => f.product_id) =
      rowIds vs ++
        rowIds (ks.filter (fun w => (findRow w.prod.product_id vs).isNone)) := by
  simp only [fuse, List.map_append, List.map_map, rowIds]
  rfl

/-- With unique ids per branch, the fused rows have unique ids. -/
theorem fuse_nodup_ids {k : ℚ} {vs ks : List BranchRow}
    (hvs : (rowIds vs).Nodup) (hks : (rowIds ks).Nodup) :
    ((fuse k vs ks).map (fun f => f.product_id)).Nodup := by
  rw [fuse_map_product_id]
  refine List.Nodup.append hvs
    (hks.sublist (List.Sublist.map _ (List.filter_sublist ks))) ?_
  intro i hvi hki
  rcases List.mem_map.mp hki with ⟨w, hw, rfl⟩
  rcases List.mem_filter.mp hw with ⟨hwks, hwnone⟩
  rcases List.mem_map.mp hvi with ⟨v, hv, hvid⟩
  have hnone := findRow_eq_none_iff.mp (Option.isNone_iff_eq_none.mp hwnone)
  exact hnone v hv hvid

/-- C2: over the whole fused candidate set, `rrf_rank`
(`ROW_NUMBER() OVER (ORDER BY rrf_score DESC)`) is a bijection onto
`1..n` for `n` fused rows — the rank list is exactly `[1, ..., n]`, each
distinct product id occurs once — and `rrf_score` is non-increasing as
`rrf_rank` increases. -/
theorem rrf_rank_is_bijection_and_score_monotone (k : ℚ)
    (vs ks : List BranchRow) (hvs : (rowIds vs).Nodup)
    (hks : (rowIds ks).Nodup) :
    (HybridRanker.rrf_ranked k vs ks).map (fun r => r.rrf_rank) =
      List.range' 1 (fuse k vs ks).length ∧
    (HybridRanker.rrf_ranked k vs ks).Pairwise
      (fun a b => a.rrf_rank < b.rrf_rank ∧ b.row.rrf_score ≤ a.row.rrf_score) ∧
    ((HybridRanker.rrf_ranked k vs ks).map (fun r => r.row.product_id)).Nodup := by
  have hperm : (List.insertionSort fuGE (fuse k vs ks)).Perm (fuse k vs ks) :=
    List.perm_insertionSort fuGE (fuse k vs ks)
  refine ⟨?_, ?_, ?_⟩
  · rw [HybridRanker.rrf_ranked, withRowNumbers_map_rank, hperm.length_eq]
  · have hsorted : (List.insertionSort fuGE (fuse k vs ks)).Pairwise fuGE :=
      List.sorted_insertionSort fuGE (fuse k vs ks)
    exact withRowNumbers_pairwise hsorted 1
  · have hmap : (HybridRanker.rrf_ranked k vs ks).map (fun r => r.row.product_id)
        = (List.insertionSort fuGE (fuse k vs ks)).map (fun f => f.product_id) := by
      rw [HybridRanker.rrf_ranked]
      rw [show (fun r : HybridRanker.CombinedRow => r.row.product_id)
        = (fun f : FusedRow => f.product_id) ∘ (fun r : HybridRanker.CombinedRow => r.row)
        from rfl]
      rw [← List.map_map, withRowNumbers_map_row]
    rw [hmap]
    exact (fuse_nodup_ids hvs hks).perm (hperm.map _).symm

/-- Membership in the inner join of fused rows with ranker output. -/
theorem mem_reranked_iff {rows : List HybridRanker.CombinedRow}
    {rout : List HybridRanker.RankOut} {x : HybridRanker.RerankedRow} :
    x ∈ HybridRanker.reranked rows rout ↔
      ∃ r ∈ rows, ∃ o ∈ rout, o.id = toString r.row.product_id ∧
        x = ⟨r, o.rank, o.score⟩ := by
  simp only [HybridRanker.reranked, List.mem_flatMap, List.mem_map,
    List.mem_filter, beq_iff_eq]
  constructor
  · rintro ⟨r, hr, o, ⟨ho, hid⟩, rfl⟩
    exact ⟨r, hr, o, ho, hid, rfl⟩
  · rintro ⟨r, hr, o, ho, hid, rfl⟩
    exact ⟨r, hr, o, ⟨ho, hid⟩, rfl⟩

/-- C3: when the reranking step runs, the visible output is at most the top
`N = 5` records ordered ascending by the Reranker's rank — every output
record precedes (in ranker rank) every reranked record not shown — and each
output record's fused row (hence its `rrf_score`, `vector_rank` and
`keyword_rank`) is exactly a row of the fusion step `rrf_combined`. -/
theorem reranker_rank_orders_final_output (query : String) (k : ℚ)
    (vs ks : List BranchRow)
    (ranker : String → List String → List String → List HybridRanker.RankOut) :
    (HybridRanker.triple_rrf query k vs ks ranker).length ≤ 5 ∧
    (HybridRanker.triple_rrf query k vs ks ranker).Pairwise
      (fun a b => a.ranker_rank ≤ b.ranker_rank) ∧
    (∀ o ∈ HybridRanker.triple_rrf query k vs ks ranker,
      o.combined ∈ HybridRanker.rrf_combined k vs ks) ∧
    (∀ o ∈ HybridRanker.triple_rrf query k vs ks ranker,
      ∀ r ∈ HybridRanker.reranked (HybridRanker.rrf_combined k vs ks)
        (ranker query (HybridRanker.ranker_docs (HybridRanker.rrf_combined k vs ks))
          (HybridRanker.ranker_ids (HybridRanker.rrf_combined k vs ks))),
        o.ranker_rank ≤ r.ranker_rank ∨
          r ∈ HybridRanker.triple_rrf query k vs ks ranker) := by
  set rows := HybridRanker.rrf_combined k vs ks with hrows
  set rout := ranker query (HybridRanker.ranker_docs rows)
    (HybridRanker.ranker_ids rows) with hrout
  have htrip : HybridRanker.triple_rrf query k vs ks ranker =
      (List.insertionSort HybridRanker.rrLE
        (HybridRanker.reranked rows rout)).take 5 := rfl
  have hsorted : (List.insertionSort HybridRanker.rrLE
      (HybridRanker.reranked rows rout)).Pairwise HybridRanker.rrLE :=
    List.sorted_insertionSort HybridRanker.rrLE _
  have hperm : (List.insertionSort HybridRanker.rrLE
      (HybridRanker.reranked rows rout)).Perm
      (HybridRanker.reranked rows rout) :=
    List.perm_insertionSort HybridRanker.rrLE _
  refine ⟨?_, ?_, ?_, ?_⟩
  · rw [htrip]; exact List.length_take_le 5 _
  · rw [htrip]
    exact List.Pairwise.sublist (List.take_sublist 5 _) hsorted
  · intro o ho
    rw [htrip] at ho
    have ho2 : o ∈ HybridRanker.reranked rows rout :=
      hperm.mem_iff.mp (List.mem_of_mem_take ho)
    rcases mem_reranked_iff.mp ho2 with ⟨r, hr, oo, _, _, rfl⟩
    exact hr
  · intro o ho r hr
    have hr2 : r ∈ List.insertionSort HybridRanker.rrLE
        (HybridRanker.reranked rows rout) := hperm.mem_iff.mpr hr
    rw [← List.take_append_drop 5 (List.insertionSort HybridRanker.rrLE
      (HybridRanker.reranked rows rout))] at hr2
    rcases List.mem_append.mp hr2 with h | h
    · exact Or.inr (by rw [htrip]; exact h)
    · left
      have hsplit := hsorted
      rw [← List.take_append_drop 5 (List.insertionSort HybridRanker.rrLE
        (HybridRanker.reranked rows rout))] at hsplit
      rcases List.pairwise_append.mp hsplit with ⟨-, -, hcross⟩
      rw [htrip] at ho
      exact hcross o ho r h

/-- Witness for C3 at the concrete instance: the reranker puts product 2
first and the pipeline returns it first, carrying its fused row. -/
theorem reranker_rank_orders_final_output_witness :
    (HybridRanker.triple_rrf "q" 60 Ex.vs0 Ex.ks0 Ex.ranker0).length ≤ 5 ∧
    (HybridRanker.triple_rrf "q" 60 Ex.vs0 Ex.ks0 Ex.ranker0).Pairwise
      (fun a b => a.ranker_rank ≤ b.ranker_rank) ∧
    Ex.rr2 ∈ HybridRanker.triple_rrf "q" 60 Ex.vs0 Ex.ks0 Ex.ranker0 ∧
    Ex.rr2.combined ∈ HybridRanker.rrf_combined 60 Ex.vs0 Ex.ks0 :=
  ⟨(reranker_rank_orders_final_output "q" 60 Ex.vs0 Ex.ks0 Ex.ranker0).1,
   (reranker_rank_orders_final_output "q" 60 Ex.vs0 Ex.ks0 Ex.ranker0).2.1,
   by decide,
   (reranker_rank_orders_final_output "q" 60 Ex.vs0 Ex.ks0 Ex.ranker0).2.2.1
     Ex.rr2 (by decide)⟩

/-- C9: fused candidates whose id (serialized as text) is absent from the
Reranker output are silently dropped by the inner join — every surviving
record's id text occurs in the ranker output, a candidate with no ranker row
appears in no joined record, and the final output likewise contains only
ranked ids; no error value exists anywhere in this path. -/
theorem fused_rows_missing_from_ranker_are_dropped
    (rows : List HybridRanker.CombinedRow)
    (rout : List HybridRanker.RankOut) :
    (∀ x ∈ HybridRanker.reranked rows rout,
      toString x.combined.row.product_id ∈ rout.map (fun o => o.id) ∧
        x.combined ∈ rows) ∧
    (∀ r ∈ rows, toString r.row.product_id ∉ rout.map (fun o => o.id) →
      ∀ x ∈ HybridRanker.reranked rows rout, x.combined ≠ r) ∧
    (∀ x ∈ HybridRanker.final_results rows rout,
      toString x.combined.row.product_id ∈ rout.map (fun o => o.id)) := by
  have hmain : ∀ x ∈ HybridRanker.reranked rows rout,
      toString x.combined.row.product_id ∈ rout.map (fun o => o.id) ∧
        x.combined ∈ rows := by
    intro x hx
    rcases mem_reranked_iff.mp hx with ⟨r, hr, o, ho, hid, rfl⟩
    exact ⟨List.mem_map.mpr ⟨o, ho, hid⟩, hr⟩
  refine ⟨hmain, ?_, ?_⟩
  · intro r _ hnot x hx heq
    obtain ⟨hin, -⟩ := hmain x hx
    rw [heq] at hin
    exact hnot hin
  · intro x hx
    have : x ∈ HybridRanker.reranked rows rout :=
      (List.perm_insertionSort HybridRanker.rrLE _).mem_iff.mp
        (List.mem_of_mem_take hx)
    exact (hmain x this).1

/-- Witness for C9: with a ranker output covering only product 2, the fused
candidate for product 1 is absent from every joined record. -/
theorem fused_rows_missing_from_ranker_are_dropped_witness :
    Ex.c1 ∈ HybridRanker.rrf_combined 60 Ex.vs0 Ex.ks0 ∧
    toString Ex.c1.row.product_id ∉ Ex.rout1.map (fun o => o.id) ∧
    Ex.rr2 ∈ HybridRanker.reranked
      (HybridRanker.rrf_combined 60 Ex.vs0 Ex.ks0) Ex.rout1 ∧
    Ex.rr2.combined ≠ Ex.c1 :=
  ⟨by decide, by decide, by decide,
    fun h => (fused_rows_missing_from_ranker_are_dropped
      (HybridRanker.rrf_combined 60 Ex.vs0 Ex.ks0) Ex.rout1).2.1
      Ex.c1 (by decide) (by decide) Ex.rr2 (by decide) h⟩

instance : IsAntisymm ℚ (fun a b => b ≤ a) :=
  ⟨fun _ _ h1 h2 => le_antisymm h2 h1⟩

/-- Two score-sorted permutations of the same fused set with pairwise
distinct scores are equal. -/
theorem eq_of_perm_sorted_nodup_scores : ∀ (l1 l2 : List FusedRow),
    l1.Perm l2 → l1.Pairwise fuGE → l2.Pairwise fuGE →
    (l1.map FusedRow.rrf_score).Nodup → l1 = l2 := by
  intro l1
  induction l1 with
  | nil =>
    intro l2 hperm _ _ _
    exact (hperm.symm.eq_nil).symm
  | cons a t ih =>
    intro l2 hperm hp1 hp2 hnd
    cases l2 with
    | nil => exact absurd hperm.eq_nil (by simp)
    | cons b t2 =>
      have hab : a = b := by
        by_contra hne
        have ha2 : a ∈ b :: t2 := hperm.subset (List.mem_cons_self a t)
        have hb1 : b ∈ a :: t := hperm.symm.subset (List.mem_cons_self b t2)
        have hat2 : a ∈ t2 := by
          rcases List.mem_cons.mp ha2 with h | h
          · exact absurd h hne
          · exact h
        have hbt : b ∈ t := by
          rcases List.mem_cons.mp hb1 with h | h
          · exact absurd h.symm (Ne.symm hne ∘ Eq.symm)
          · exact h
        have h1 : b.rrf_score ≤ a.rrf_score :=
          (List.pairwise_cons.mp hp1).1 b hbt
        have h2 : a.rrf_score ≤ b.rrf_score :=
          (List.pairwise_cons.mp hp2).1 a hat2
        have hscore : b.rrf_score = a.rrf_score := le_antisymm h1 h2
        rw [List.map_cons, List.nodup_cons] at hnd
        exact hnd.1 (hscore ▸ List.mem_map_of_mem FusedRow.rrf_score hbt)
      subst hab
      have ht : t.Perm t2 := hperm.cons_inv
      have := ih t2 ht (List.Pairwise.of_cons hp1) (List.Pairwise.of_cons hp2)
        (by rw [List.map_cons, List.nodup_cons] at hnd; exact hnd.2)
      rw [this]

/-- C6 counterexample: products 1 and 2 tie at `rrf_score = 1/61` (vector
rank 1 only, resp. keyword rank 1 only); the SQL's
`ORDER BY rrf_score DESC LIMIT 10` admits both candidate orders, so two runs
of the same query need not return identical ranked output. -/
theorem rrf_tie_order_not_determined :
    HybridRRF.IsRRFOutput 60 Ex.vsT Ex.ksT Ex.outA ∧
    HybridRRF.IsRRFOutput 60 Ex.vsT Ex.ksT Ex.outB ∧
    Ex.outA ≠ Ex.outB ∧ Ex.fA.rrf_score = Ex.fB.rrf_score :=
  ⟨⟨Ex.outA, List.Perm.refl _, by decide, by decide⟩,
   ⟨Ex.outB, List.Perm.swap Ex.fA Ex.fB [], by decide, by decide⟩,
   by decide, by decide⟩

/-- C6 (amended): re-running the same query against unchanged data yields
outputs with identical `rrf_score` sequences, and identical ranked output
whenever all fused `rrf_score`s are pairwise distinct; the SQL orders only
by `rrf_score`, with no deterministic tie-break, so candidates with exactly
equal scores may be returned in either order. -/
theorem rrf_output_deterministic_up_to_score_ties (k : ℚ)
    (vs ks : List BranchRow) (out1 out2 : List FusedRow)
    (h1 : HybridRRF.IsRRFOutput k vs ks out1)
    (h2 : HybridRRF.IsRRFOutput k vs ks out2) :
    out1.map FusedRow.rrf_score = out2.map FusedRow.rrf_score ∧
    (((fuse k vs ks).map FusedRow.rrf_score).Nodup → out1 = out2) := by
  obtain ⟨f1, hp1, hs1, rfl⟩ := h1
  obtain ⟨f2, hp2, hs2, rfl⟩ := h2
  have hperm : f1.Perm f2 := hp1.trans hp2.symm
  have hsm1 : (f1.map FusedRow.rrf_score).Pairwise (fun a b : ℚ => b ≤ a) :=
    List.pairwise_map.mpr hs1
  have hsm2 : (f2.map FusedRow.rrf_score).Pairwise (fun a b : ℚ => b ≤ a) :=
    List.pairwise_map.mpr hs2
  have hmap : f1.map FusedRow.rrf_score = f2.map FusedRow.rrf_score :=
    List.eq_of_perm_of_sorted (hperm.map FusedRow.rrf_score) hsm1 hsm2
  constructor
  · rw [List.map_take, List.map_take]
    exact congrArg (List.take 10) hmap
  · intro hnd
    have hnd1 : (f1.map FusedRow.rrf_score).Nodup :=
      ((hp1.map FusedRow.rrf_score).nodup_iff).mpr hnd
    have : f1 = f2 := eq_of_perm_sorted_nodup_scores f1 f2 hperm hs1 hs2 hnd1
    rw [this]

/-- Witness for the amended C6: the concrete no-tie instance admits exactly
one output. -/
theorem rrf_output_deterministic_up_to_score_ties_witness :
    (HybridRRF.rrf_results 60 Ex.vs0 Ex.ks0).map FusedRow.rrf_score =
      (HybridRRF.rrf_results 60 Ex.vs0 Ex.ks0).map FusedRow.rrf_score ∧
    (((fuse 60 Ex.vs0 Ex.ks0).map FusedRow.rrf_score).Nodup →
      HybridRRF.rrf_results 60 Ex.vs0 Ex.ks0 =
        HybridRRF.rrf_results 60 Ex.vs0 Ex.ks0) :=
  rrf_output_deterministic_up_to_score_ties 60 Ex.vs0 Ex.ks0
    (HybridRRF.rrf_results 60 Ex.vs0 Ex.ks0)
    (HybridRRF.rrf_results 60 Ex.vs0 Ex.ks0)
    ⟨List.insertionSort fuGE (fuse 60 Ex.vs0 Ex.ks0),
      List.perm_insertionSort fuGE _, List.sorted_insertionSort fuGE _, rfl⟩
    ⟨List.insertionSort fuGE (fuse 60 Ex.vs0 Ex.ks0),
      List.perm_insertionSort fuGE _, List.sorted_insertionSort fuGE _, rfl⟩

/-- C4 counterexample: in `hybrid_ranker_search.py`, with seventeen products
at distances `1..17` where only product 17 matches the keyword query,
product 17's `vector_rank` is `16` (its `RANK()` over the pooled base
candidates) while its 1-based position in the distance ordering over the
full item table is `17`. -/
theorem vector_rank_not_full_table_position_in_ranker_script :
    ((HybridRanker.vector_search Ex.cProds Ex.cDist Ex.cMatch Ex.cScore).find?
        (fun r => r.prod.product_id == 17)).map BranchRow.rank = some 16 ∧
    rankAsc (densePairs Ex.cProds Ex.cDist) ((17 : Nat) : ℚ) = 17 ∧
    Ex.cDist ⟨17, "S", "N", "D"⟩ = some ((17 : Nat) : ℚ) := by
  decide

/-- C4 (amended): in `hybrid_rrf_search.py` the dense step returns the
`M = 20` items with non-null embeddings closest to the query under cosine
distance — no table row with an embedding that is left out of the result is
strictly closer than any returned row — ordered ascending by distance, and
assigns as `vector_rank` the `RANK()` over the distance ordering of the
whole item table (equal to the 1-based position when distances are
distinct); in `hybrid_ranker_search.py` the rank is instead computed over
the pooled base candidates. -/
theorem hybrid_rrf_dense_retrieval_full_table (prods : List Product)
    (dist : Product → Option ℚ) :
    (HybridRRF.vector_search prods dist).length =
      min 20 (densePairs prods dist).length ∧
    (HybridRRF.vector_search prods dist).Pairwise
      (fun a b => a.key ≤ b.key) ∧
    (∀ r ∈ HybridRRF.vector_search prods dist,
      r.prod ∈ prods ∧ dist r.prod = some r.key ∧
        r.rank = rankAsc (densePairs prods dist) r.key) ∧
    (∀ p : Product, ∀ d : ℚ, (p, d) ∈ densePairs prods dist →
      (⟨p, d, rankAsc (densePairs prods dist) d⟩ : BranchRow) ∉
        HybridRRF.vector_search prods dist →
      ∀ r ∈ HybridRRF.vector_search prods dist, r.key ≤ d) := by
  have htake : HybridRRF.vector_search prods dist =
      (List.insertionSort brLE (denseRanked prods dist)).take 20 := rfl
  have hsorted : (List.insertionSort brLE (denseRanked prods dist)).Pairwise
      brLE := List.sorted_insertionSort brLE _
  refine ⟨?_, ?_, ?_, ?_⟩
  · rw [HybridRRF.vector_search, denseBranch, List.length_take,
      (List.perm_insertionSort brLE _).length_eq]
    simp [denseRanked]
  · exact List.Pairwise.sublist (List.take_sublist _ _) hsorted
  · intro r hr
    obtain ⟨hp, hrank⟩ := mem_denseRanked (mem_denseBranch hr)
    obtain ⟨hmem, hdist⟩ := mem_densePairs_iff.mp hp
    exact ⟨hmem, hdist, hrank⟩
  · intro p d hpd hnot r hr
    have hm : (⟨p, d, rankAsc (densePairs prods dist) d⟩ : BranchRow) ∈
        denseRanked prods dist := List.mem_map.mpr ⟨(p, d), hpd, rfl⟩
    have hm2 : (⟨p, d, rankAsc (densePairs prods dist) d⟩ : BranchRow) ∈
        List.insertionSort brLE (denseRanked prods dist) :=
      (List.perm_insertionSort brLE _).mem_iff.mpr hm
    rw [← List.take_append_drop 20
      (List.insertionSort brLE (denseRanked prods dist))] at hm2
    rcases List.mem_append.mp hm2 with h | h
    · exact absurd (htake ▸ h) hnot
    · have hsplit := hsorted
      rw [← List.take_append_drop 20
        (List.insertionSort brLE (denseRanked prods dist))] at hsplit
      rcases List.pairwise_append.mp hsplit with ⟨-, -, hcross⟩
      exact hcross r (htake ▸ hr) _ h

/-- Witness for the amended C4: a three-product table exercises the rank and
ordering conjuncts, and a 21-product table (distances `1..21`) exercises the
nearest-selection conjunct — the row of product 21 is cut by `LIMIT 20` and
every returned row, e.g. product 1's, is at least as close. -/
theorem hybrid_rrf_dense_retrieval_full_table_witness :
    ((HybridRRF.vector_search Ex.tieProds Ex.tieDist).length =
      min 20 (densePairs Ex.tieProds Ex.tieDist).length ∧
    (HybridRRF.vector_search Ex.tieProds Ex.tieDist).Pairwise
      (fun a b => a.key ≤ b.key) ∧
    Ex.ta ∈ HybridRRF.vector_search Ex.tieProds Ex.tieDist ∧
    (Ex.ta.prod ∈ Ex.tieProds ∧ Ex.tieDist Ex.ta.prod = some Ex.ta.key ∧
      Ex.ta.rank = rankAsc (densePairs Ex.tieProds Ex.tieDist) Ex.ta.key)) ∧
    ((Ex.ex21, ((21 : Nat) : ℚ)) ∈ densePairs Ex.bProds Ex.cDist ∧
    Ex.exRow21 ∉ HybridRRF.vector_search Ex.bProds Ex.cDist ∧
    Ex.w1 ∈ HybridRRF.vector_search Ex.bProds Ex.cDist ∧
    Ex.w1.key ≤ ((21 : Nat) : ℚ)) :=
  ⟨⟨(hybrid_rrf_dense_retrieval_full_table Ex.tieProds Ex.tieDist).1,
    (hybrid_rrf_dense_retrieval_full_table Ex.tieProds Ex.tieDist).2.1,
    by decide,
    (hybrid_rrf_dense_retrieval_full_table Ex.tieProds Ex.tieDist).2.2.1
      Ex.ta (by decide)⟩,
   ⟨by decide, by decide, by decide,
    (hybrid_rrf_dense_retrieval_full_table Ex.bProds Ex.cDist).2.2.2
      Ex.ex21 ((21 : Nat) : ℚ) (by decide) (by decide) Ex.w1 (by decide)⟩⟩

/-- C8 counterexample: with twenty-one products all having embeddings
(distances `1..21`) and products `16..21` matching the keyword query, the
pooled candidate set has 21 rows with embeddings; the pool re-ranking's
`LIMIT 20` drops product 21, so product 21 — discovered by the keyword
branch and having a non-null embedding — is fused with `vector_rank = NULL`
and receives only the keyword contribution. -/
theorem keyword_discovered_item_may_lack_vector_rank :
    Ex.cDist ⟨21, "S", "N", "D"⟩ = some ((21 : Nat) : ℚ) ∧
    ((HybridRanker.keyword_search Ex.bProds Ex.cDist Ex.bMatch Ex.bScore).find?
        (fun r => r.prod.product_id == 21)).isSome = true ∧
    ((fuse 60 (HybridRanker.vector_search Ex.bProds Ex.cDist Ex.bMatch Ex.bScore)
        (HybridRanker.keyword_search Ex.bProds Ex.cDist Ex.bMatch Ex.bScore)).find?
        (fun f => f.product_id == 21)).map
        (fun f => (f.vector_rank, f.keyword_rank)) = some (none, some 6) := by
  decide

/-- C8 (amended): in the reranking pipeline, `vector_rank` and
`keyword_rank` are recomputed over the pooled union of the two branches'
top-15 base candidates; an item found by the keyword branch that has a
non-null embedding is assigned a `vector_rank` — the pool `RANK()` of its
distance — and receives both strictly positive RRF contributions, provided
it survives the pool re-ranking's `LIMIT 20` (guaranteed when at most 20
pooled candidates have embeddings). -/
theorem pooled_rerank_gives_both_contributions (prods : List Product)
    (dist : Product → Option ℚ) (tsMatch : Product → Bool)
    (score : Product → ℚ) (k : ℚ) (hk : 0 < k)
    (hnd : (prods.map (fun p => p.product_id)).Nodup)
    (q : BranchRow) (d : ℚ)
    (hq : q ∈ HybridRanker.keyword_search prods dist tsMatch score)
    (hd : dist q.prod = some d)
    (hlen : (densePairs (HybridRanker.base_candidates prods dist tsMatch score)
      dist).length ≤ 20) :
    ∃ f ∈ fuse k (HybridRanker.vector_search prods dist tsMatch score)
        (HybridRanker.keyword_search prods dist tsMatch score),
      f.product_id = q.prod.product_id ∧
      f.vector_rank = some (rankAsc (densePairs
        (HybridRanker.base_candidates prods dist tsMatch score) dist) d) ∧
      f.keyword_rank = some q.rank ∧
      f.rrf_score = contrib k f.vector_rank + contrib k f.keyword_rank ∧
      0 < contrib k f.vector_rank ∧ 0 < contrib k f.keyword_rank := by
  have hq2 : q ∈ sparseRanked
      (HybridRanker.base_candidates prods dist tsMatch score) tsMatch score :=
    mem_sparseBranch hq
  obtain ⟨hqp, -⟩ := mem_sparseRanked hq2
  have hqbase : q.prod ∈ HybridRanker.base_candidates prods dist tsMatch score :=
    (mem_sparsePairs_iff.mp hqp).1
  have hpair : (q.prod, d) ∈ densePairs
      (HybridRanker.base_candidates prods dist tsMatch score) dist :=
    mem_densePairs_iff.mpr ⟨hqbase, hd⟩
  have hrmem : (⟨q.prod, d, rankAsc (densePairs
      (HybridRanker.base_candidates prods dist tsMatch score) dist) d⟩ :
        BranchRow) ∈ denseRanked
      (HybridRanker.base_candidates prods dist tsMatch score) dist :=
    List.mem_map.mpr ⟨(q.prod, d), hpair, rfl⟩
  have hsorted_len : (List.insertionSort brLE (denseRanked
      (HybridRanker.base_candidates prods dist tsMatch score) dist)).length ≤ 20 := by
    rw [(List.perm_insertionSort brLE _).length_eq]
    simpa [denseRanked] using hlen
  have hvs : (⟨q.prod, d, rankAsc (densePairs
      (HybridRanker.base_candidates prods dist tsMatch score) dist) d⟩ :
        BranchRow) ∈ HybridRanker.vector_search prods dist tsMatch score := by
    rw [HybridRanker.vector_search, denseBranch,
      List.take_of_length_le hsorted_len]
    exact (List.perm_insertionSort brLE _).mem_iff.mpr hrmem
  have hksnd : (rowIds (HybridRanker.keyword_search prods dist tsMatch score)).Nodup :=
    sparseBranch_nodup_ids (base_candidates_nodup_ids hnd)
  have hfind : findRow q.prod.product_id
      (HybridRanker.keyword_search prods dist tsMatch score) = some q :=
    findRow_self hksnd hq
  refine ⟨fuseRow k (some ⟨q.prod, d, rankAsc (densePairs
      (HybridRanker.base_candidates prods dist tsMatch score) dist) d⟩)
      (findRow q.prod.product_id
        (HybridRanker.keyword_search prods dist tsMatch score)),
    mem_fuse_left hvs, rfl, rfl, ?_, ?_, ?_, ?_⟩
  · rw [fuseRow_keyword_rank, hfind]
    rfl
  · rfl
  · rw [fuseRow_vector_rank]
    exact contrib_pos hk _
  · rw [fuseRow_keyword_rank, hfind]
    exact contrib_pos hk q.rank

/-- Witness for the amended C8: a two-product table where the keyword-only
product 2 has an embedding and gets both contributions. -/
theorem pooled_rerank_gives_both_contributions_witness :
    ∃ f ∈ fuse 60 (HybridRanker.vector_search Ex.dProds Ex.cDist Ex.dMatch Ex.dScore)
        (HybridRanker.keyword_search Ex.dProds Ex.cDist Ex.dMatch Ex.dScore),
      f.product_id = Ex.qW.prod.product_id ∧
      f.vector_rank = some (rankAsc (densePairs
        (HybridRanker.base_candidates Ex.dProds Ex.cDist Ex.dMatch Ex.dScore)
          Ex.cDist) 2) ∧
      f.keyword_rank = some Ex.qW.rank ∧
      f.rrf_score = contrib 60 f.vector_rank + contrib 60 f.keyword_rank ∧
      0 < contrib 60 f.vector_rank ∧ 0 < contrib 60 f.keyword_rank :=
  pooled_rerank_gives_both_contributions Ex.dProds Ex.cDist Ex.dMatch Ex.dScore
    60 (by decide) (by decide) Ex.qW 2 (by decide) (by decide) (by decide)

/-- Witness for C2 at the concrete two-branch instance. -/
theorem rrf_rank_is_bijection_and_score_monotone_witness :
    (HybridRanker.rrf_ranked 60 Ex.vs0 Ex.ks0).map (fun r => r.rrf_rank) =
      List.range' 1 (fuse 60 Ex.vs0 Ex.ks0).length ∧
    (HybridRanker.rrf_ranked 60 Ex.vs0 Ex.ks0).Pairwise
      (fun a b => a.rrf_rank < b.rrf_rank ∧ b.row.rrf_score ≤ a.row.rrf_score) ∧
    ((HybridRanker.rrf_ranked 60 Ex.vs0 Ex.ks0).map
      (fun r => r.row.product_id)).Nodup :=
  rrf_rank_is_bijection_and_score_monotone 60 Ex.vs0 Ex.ks0
    (by decide) (by decide)

end ZavaSearch
